import Mathlib

/-!
Verification development for the `placed_vector` container
(`src/placed_vector.h`).

The container is a growable vector whose allocator (`allocator_in_place`)
tries to satisfy each allocation from a fixed inline buffer described by a
`place_manager` descriptor embedded in the container (`managed_place`),
falling back to an ordinary allocator otherwise.

Shallow embedding conventions:
* Storage blocks are identified symbolically by `Addr`: `Addr.buf o` is the
  inline buffer of the container instance with identity `o` (the address of
  its `m_place.bytes`); `Addr.fb j` is the `j`-th block obtained from the
  fallback allocator, which always succeeds and always returns a fresh
  block.  A per-container counter `fresh` supplies fallback block ids, so
  `fresh` also counts how many fallback allocations have been made.
* The `std::vector` layer is modelled with its conventional behaviour
  (the one shared by the mainstream standard libraries): `reserve n`
  reallocates to exactly `n` when `n > capacity` and does nothing
  otherwise; `shrink_to_fit` reallocates to exactly `size` (releasing
  everything when `size = 0`); copy construction allocates exactly
  `size` elements and performs no allocation when the source is empty;
  `push_back` grows geometrically (factor 2; the claims below do not
  depend on the factor).  A reallocation allocates the new block first
  and releases the old block afterwards, as `std::vector` does.
* C++ initialises a base class before the non-static data members, so in
  the copy constructor the base `std::vector` performs its copy-allocation
  through the allocator bound to `&m_place` before `m_place` itself is
  constructed.  For a nonempty source that allocation reads the
  descriptor's indeterminate contents (undefined behaviour in the
  program); the model makes those reads explicit parameters and proves its
  results for every value of them.  `m_place`'s constructor then runs and
  overwrites the descriptor with `is_used = false`, `is_enabled = true`.
-/

/-- Symbolic address of a storage block: the inline buffer of the instance
with identity `o`, or the `j`-th fallback-allocated block. -/
inductive Addr where
| buf : Nat → Addr
| fb : Nat → Addr
deriving DecidableEq

/-- `place_manager<T>`: the descriptor of one inline region.  `size` is the
region's capacity in elements (`N` for a `managed_place<T, N>`); the byte
pointer `p_bytes` is represented by the owning instance's identity. -/
structure place_manager where
  is_used : Bool
  is_enabled : Bool
  size : Nat
deriving DecidableEq

/-- `allocator_in_place<T, A>` in isolation: an optional attached descriptor
(`m_place`, `none` models the null pointer) tagged with the identity of the
instance owning the inline buffer, plus the fallback allocator's supply
counter. -/
structure allocator_in_place where
  place : Option (Nat × place_manager)
  fresh : Nat
deriving DecidableEq

/-- `allocator_in_place::allocate(n)`: hand out the inline buffer iff a
descriptor is attached, enabled, not already used, and `n` fits; otherwise
delegate to the fallback allocator. -/
def allocator_in_place.allocate (a : allocator_in_place) (n : Nat) :
    Addr × allocator_in_place :=
  match a.place with
  | some op =>
    if op.2.is_enabled = true ∧ op.2.is_used = false ∧ n ≤ op.2.size then
      (Addr.buf op.1, { a with place := some (op.1, { op.2 with is_used := true }) })
    else
      (Addr.fb a.fresh, { a with fresh := a.fresh + 1 })
  | none => (Addr.fb a.fresh, { a with fresh := a.fresh + 1 })

/-- `allocator_in_place::deallocate(p, n)` compares `p` against
`m_place->p_bytes` before any null test, so a null descriptor pointer is
dereferenced: the result is `none` (undefined behaviour) in that case. -/
def allocator_in_place.deallocate (a : allocator_in_place) (p : Addr) :
    Option allocator_in_place :=
  match a.place with
  | none => none
  | some op =>
    if p = Addr.buf op.1 then
      some { a with place := some (op.1, { op.2 with is_used := false }) }
    else
      some a

/-- `allocator_in_place::is_in_place()`: false for a null descriptor,
otherwise the descriptor's `is_used` flag. -/
def allocator_in_place.is_in_place (a : allocator_in_place) : Bool :=
  match a.place with
  | none => false
  | some op => op.2.is_used

/-- The two-argument constructor with both arguments defaulted
(`allocator_in_place(alloc = allocator_type(), place = nullptr)`): the
attached descriptor defaults to the null pointer. -/
def allocator_in_place.default_build : allocator_in_place :=
  { place := none, fresh := 0 }

/-- The rebind converting constructor
(`template <U> allocator_in_place(const allocator_in_place<U>&)`): it
ignores its argument and sets `m_place(nullptr)`. -/
def allocator_in_place.rebind_build (_other : allocator_in_place) :
    allocator_in_place :=
  { place := none, fresh := 0 }

/-- `placed_vector<T, N, A>` together with the state of its embedded
`managed_place<T, N>` and of the `std::vector` base: `self` is the
instance's identity (the address of its inline buffer), `place` the
descriptor, `elems` the element sequence, `cap` the vector capacity,
`store` the active storage block (`none` when the vector holds no
allocation), and `fresh` the fallback supply counter. -/
structure placed_vector (α : Type) where
  self : Nat
  place : place_manager
  elems : List α
  cap : Nat
  store : Option Addr
  fresh : Nat
deriving DecidableEq

/-- The allocation test of `allocator_in_place::allocate` specialised to the
allocator a `placed_vector` builds for itself, whose `m_place` is the
(non-null) address of its own descriptor. -/
def pvAllocate {α : Type} (pv : placed_vector α) (n : Nat) :
    Addr × placed_vector α :=
  if pv.place.is_enabled = true ∧ pv.place.is_used = false ∧ n ≤ pv.place.size then
    (Addr.buf pv.self, { pv with place := { pv.place with is_used := true } })
  else
    (Addr.fb pv.fresh, { pv with fresh := pv.fresh + 1 })

/-- `allocator_in_place::deallocate` specialised the same way: releasing the
inline buffer clears `is_used`; releasing a fallback block goes to the
fallback allocator. -/
def pvDeallocate {α : Type} (pv : placed_vector α) (p : Addr) :
    placed_vector α :=
  if p = Addr.buf pv.self then
    { pv with place := { pv.place with is_used := false } }
  else
    pv

/-- Release the active block, if any. -/
def pvDealloStore {α : Type} (pv : placed_vector α) (o : Option Addr) :
    placed_vector α :=
  match o with
  | none => pv
  | some p => pvDeallocate pv p

/-- One `std::vector` reallocation to capacity `n`: allocate the new block,
move the elements, release the old block. -/
def realloc {α : Type} (pv : placed_vector α) (n : Nat) : placed_vector α :=
  let r := pvAllocate pv n
  let q := pvDealloStore r.2 pv.store
  { q with cap := n, store := some r.1 }

/-- `reserve(n)`: reallocate to exactly `n` when `n` exceeds the current
capacity, otherwise do nothing. -/
def reserve {α : Type} (n : Nat) (pv : placed_vector α) : placed_vector α :=
  if n ≤ pv.cap then pv else realloc pv n

/-- `shrink_to_fit()`: reallocate to exactly `size()`; when the vector is
empty, release the active block and keep no allocation. -/
def shrink_to_fit {α : Type} (pv : placed_vector α) : placed_vector α :=
  if pv.elems.length = pv.cap then pv
  else if pv.elems.length = 0 then
    { pvDealloStore pv pv.store with cap := 0, store := none }
  else
    realloc pv pv.elems.length

/-- `push_back(x)`: append in place when capacity allows, otherwise grow
(geometrically) through a reallocation and append. -/
def push_back {α : Type} (pv : placed_vector α) (x : α) : placed_vector α :=
  if pv.elems.length < pv.cap then
    { pv with elems := pv.elems ++ [x] }
  else
    let n := if pv.cap = 0 then 1 else 2 * pv.cap
    { realloc pv n with elems := pv.elems ++ [x] }

/-- `pop_back()`. -/
def pop_back {α : Type} (pv : placed_vector α) : placed_vector α :=
  { pv with elems := pv.elems.dropLast }

/-- `clear()`: destroys the elements; capacity and storage are kept. -/
def clear {α : Type} (pv : placed_vector α) : placed_vector α :=
  { pv with elems := [] }

/-- `placed_vector::is_in_place()`: delegates to the allocator, whose
descriptor pointer is the container's own (non-null) descriptor. -/
def is_in_place {α : Type} (pv : placed_vector α) : Bool :=
  pv.place.is_used

/-- `placed_vector::size_in_place()`: the compile-time constant `N`. -/
def size_in_place (N : Nat) : Nat :=
  N

/-- Toggling `m_place.is_enabled`. -/
def set_enabled {α : Type} (b : Bool) (pv : placed_vector α) :
    placed_vector α :=
  { pv with place := { pv.place with is_enabled := b } }

/-- `put_in_place` step 3: `reserve(N + 1)`. -/
def pip_grow {α : Type} (N : Nat) (pv : placed_vector α) : placed_vector α :=
  reserve (N + 1) pv

/-- `put_in_place` step 4: `if (size() != N) m_place.is_enabled = false;`. -/
def pip_disable {α : Type} (N : Nat) (pv : placed_vector α) :
    placed_vector α :=
  if pv.elems.length ≠ N then set_enabled false pv else pv

/-- `put_in_place` step 5: `shrink_to_fit()`. -/
def pip_shrink {α : Type} (pv : placed_vector α) : placed_vector α :=
  shrink_to_fit pv

/-- `put_in_place` step 6: `m_place.is_enabled = true;`. -/
def pip_enable {α : Type} (pv : placed_vector α) : placed_vector α :=
  set_enabled true pv

/-- `put_in_place` step 7: `reserve(N)`. -/
def pip_reclaim {α : Type} (N : Nat) (pv : placed_vector α) :
    placed_vector α :=
  reserve N pv

/-- `placed_vector::put_in_place()`: the full coercion routine, returning
the boolean result together with the resulting state. -/
def put_in_place {α : Type} (N : Nat) (pv : placed_vector α) :
    Bool × placed_vector α :=
  if is_in_place pv = true ∧ pv.cap = N then (true, pv)
  else if N < pv.elems.length then (false, pv)
  else
    let q := pip_reclaim N (pip_enable (pip_shrink (pip_disable N (pip_grow N pv))))
    (is_in_place q, q)

/-- `placed_vector(const A&)` (also the default constructor): the base
vector starts empty with the allocator bound to the own descriptor, and the
body reserves `N` at once. -/
def init (α : Type) (N : Nat) (a : Nat) : placed_vector α :=
  reserve N
    { self := a
      place := { is_used := false, is_enabled := true, size := N }
      elems := []
      cap := 0
      store := none
      fresh := 0 }

/-- `placed_vector(const placed_vector& other)`: the base `std::vector` is
copy-constructed with an allocator bound to the new instance's own
descriptor `&m_place`, copying `other`'s elements into a block of exactly
`other.size()` elements (no allocation when `other` is empty) — but the
base is initialised BEFORE the member `m_place`, so for a nonempty source
the allocation consults the descriptor's indeterminate contents: `junk`
models the indeterminate `is_used`/`is_enabled`/`size` fields it reads and
`jb` the indeterminate `p_bytes` pointer it would hand out (undefined
behaviour in the program; the model is parametric in every such value).
Afterwards `m_place`'s constructor runs, overwriting the descriptor with
`is_used := false`, `is_enabled := true`, `size := N`. -/
def copy_construct {α : Type} (N b : Nat) (junk : place_manager) (jb : Nat)
    (src : placed_vector α) : placed_vector α :=
  if src.elems.length = 0 then
    ⟨b, ⟨false, true, N⟩, [], 0, none, 0⟩
  else if junk.is_enabled = true ∧ junk.is_used = false ∧
      src.elems.length ≤ junk.size then
    ⟨b, ⟨false, true, N⟩, src.elems, src.elems.length,
      some (Addr.buf jb), 0⟩
  else
    ⟨b, ⟨false, true, N⟩, src.elems, src.elems.length,
      some (Addr.fb 0), 1⟩

/-- The public mutating operations of a `placed_vector`. -/
inductive Op (α : Type) where
| push : α → Op α
| pop : Op α
| res : Nat → Op α
| shrink : Op α
| wipe : Op α
| coerce : Op α
deriving DecidableEq

/-- Apply one operation. -/
def applyOp {α : Type} (N : Nat) (pv : placed_vector α) : Op α → placed_vector α
| Op.push x => push_back pv x
| Op.pop => pop_back pv
| Op.res n => reserve n pv
| Op.shrink => shrink_to_fit pv
| Op.wipe => clear pv
| Op.coerce => (put_in_place N pv).2

/-- Run a sequence of operations. -/
def runOps {α : Type} (N : Nat) (pv : placed_vector α) (ops : List (Op α)) :
    placed_vector α :=
  ops.foldl (applyOp N) pv

/-- Append a list of elements one by one. -/
def push_all {α : Type} (pv : placed_vector α) (xs : List α) :
    placed_vector α :=
  xs.foldl push_back pv

/-- The active block of a container with identity `s` is never the inline
buffer of a foreign instance. -/
def storeOk (o : Option Addr) (s : Nat) : Bool :=
  match o with
  | none => true
  | some (Addr.buf j) => j == s
  | some (Addr.fb _) => true

/-- Consistency invariant of a `placed_vector` state, established by
construction and preserved by every operation: the descriptor records the
inline capacity `N` and is enabled outside `put_in_place`; `is_used` holds
exactly when the active block is the own inline buffer; the elements fit
the capacity; an active inline block never records a capacity above `N`;
the vector holds no block exactly when its capacity is zero; and the
active block is never a foreign inline buffer. -/
def WF {α : Type} (N : Nat) (pv : placed_vector α) : Prop :=
  pv.place.size = N ∧
  pv.place.is_enabled = true ∧
  (pv.place.is_used = true ↔ pv.store = some (Addr.buf pv.self)) ∧
  pv.elems.length ≤ pv.cap ∧
  (pv.store = some (Addr.buf pv.self) → pv.cap ≤ N) ∧
  (pv.store = none ↔ pv.cap = 0) ∧
  storeOk pv.store pv.self = true

instance {α : Type} [DecidableEq α] (N : Nat) (pv : placed_vector α) :
    Decidable (WF N pv) := by
  unfold WF
  infer_instance

/-! ### Branch lemmas for the allocation primitives -/

lemma pvAllocate_pos {α : Type} {pv : placed_vector α} {n : Nat}
    (he : pv.place.is_enabled = true) (hu : pv.place.is_used = false)
    (hn : n ≤ pv.place.size) :
    pvAllocate pv n =
      (Addr.buf pv.self, { pv with place := { pv.place with is_used := true } }) := by
  unfold pvAllocate
  rw [if_pos ⟨he, hu, hn⟩]

lemma pvAllocate_neg {α : Type} {pv : placed_vector α} {n : Nat}
    (h : ¬(pv.place.is_enabled = true ∧ pv.place.is_used = false ∧ n ≤ pv.place.size)) :
    pvAllocate pv n = (Addr.fb pv.fresh, { pv with fresh := pv.fresh + 1 }) := by
  unfold pvAllocate
  rw [if_neg h]

lemma realloc_inline {α : Type} {pv : placed_vector α} {n : Nat}
    (he : pv.place.is_enabled = true) (hu : pv.place.is_used = false)
    (hn : n ≤ pv.place.size) (hso : pv.store ≠ some (Addr.buf pv.self)) :
    realloc pv n =
      { pv with place := { pv.place with is_used := true }, cap := n,
                store := some (Addr.buf pv.self) } := by
  unfold realloc
  rw [pvAllocate_pos he hu hn]
  cases hst : pv.store with
  | none => rfl
  | some p =>
    have hp : ¬(p = Addr.buf pv.self) := by
      intro h
      exact hso (by rw [hst, h])
    simp [pvDealloStore, pvDeallocate, hp]

lemma realloc_fb_buf {α : Type} {pv : placed_vector α} {n : Nat}
    (hc : ¬(pv.place.is_enabled = true ∧ pv.place.is_used = false ∧ n ≤ pv.place.size))
    (hst : pv.store = some (Addr.buf pv.self)) :
    realloc pv n =
      { pv with place := { pv.place with is_used := false }, cap := n,
                store := some (Addr.fb pv.fresh), fresh := pv.fresh + 1 } := by
  unfold realloc
  rw [pvAllocate_neg hc, hst]
  simp [pvDealloStore, pvDeallocate]

lemma realloc_fb_other {α : Type} {pv : placed_vector α} {n : Nat}
    (hc : ¬(pv.place.is_enabled = true ∧ pv.place.is_used = false ∧ n ≤ pv.place.size))
    (hso : pv.store ≠ some (Addr.buf pv.self)) :
    realloc pv n =
      { pv with cap := n, store := some (Addr.fb pv.fresh), fresh := pv.fresh + 1 } := by
  unfold realloc
  rw [pvAllocate_neg hc]
  cases hst : pv.store with
  | none => rfl
  | some p =>
    have hp : ¬(p = Addr.buf pv.self) := by
      intro h
      exact hso (by rw [hst, h])
    simp [pvDealloStore, pvDeallocate, hp]

/-! ### Effect of a reallocation on a well-formed state -/

lemma realloc_main {α : Type} {N n : Nat} {pv : placed_vector α}
    (h : WF N pv) :
    (realloc pv n).self = pv.self ∧ (realloc pv n).elems = pv.elems ∧
    (realloc pv n).cap = n ∧ (realloc pv n).place.size = N ∧
    (realloc pv n).place.is_enabled = true ∧
    (((realloc pv n).place.is_used = true ∧
        (realloc pv n).store = some (Addr.buf pv.self) ∧ n ≤ N) ∨
      ((realloc pv n).place.is_used = false ∧
        ∃ j, (realloc pv n).store = some (Addr.fb j))) := by
  obtain ⟨hsz, hen, hiff, hlen, hbc, hnc, hok⟩ := h
  by_cases hu : pv.place.is_used = true
  · have hst : pv.store = some (Addr.buf pv.self) := hiff.mp hu
    have hc : ¬(pv.place.is_enabled = true ∧ pv.place.is_used = false ∧
        n ≤ pv.place.size) := by
      intro hh
      rw [hu] at hh
      exact absurd hh.2.1 (by simp)
    rw [realloc_fb_buf hc hst]
    refine ⟨rfl, rfl, rfl, hsz, hen, Or.inr ⟨rfl, pv.fresh, rfl⟩⟩
  · have hu' : pv.place.is_used = false := by
      cases hh : pv.place.is_used
      · rfl
      · exact absurd hh hu
    have hso : pv.store ≠ some (Addr.buf pv.self) := by
      intro hh
      exact hu (hiff.mpr hh)
    by_cases hn2 : n ≤ pv.place.size
    · rw [realloc_inline hen hu' hn2 hso]
      exact ⟨rfl, rfl, rfl, hsz, hen, Or.inl ⟨rfl, rfl, hsz ▸ hn2⟩⟩
    · have hc : ¬(pv.place.is_enabled = true ∧ pv.place.is_used = false ∧
          n ≤ pv.place.size) := by
        intro hh
        exact hn2 hh.2.2
      rw [realloc_fb_other hc hso]
      exact ⟨rfl, rfl, rfl, hsz, hen, Or.inr ⟨hu', pv.fresh, rfl⟩⟩

/-! ### The invariant is preserved by every operation -/

lemma WF_realloc {α : Type} {N n : Nat} {pv : placed_vector α}
    (h : WF N pv) (hln : pv.elems.length ≤ n) (hn : 0 < n) :
    WF N (realloc pv n) ∧ (realloc pv n).elems = pv.elems ∧
    (realloc pv n).self = pv.self := by
  obtain ⟨hself, helems, hcap, hsz, hen, hcase⟩ := realloc_main (n := n) h
  refine ⟨⟨hsz, hen, ?_, ?_, ?_, ?_, ?_⟩, helems, hself⟩
  · rcases hcase with ⟨h1, h2, _⟩ | ⟨h1, j, h2⟩ <;> rw [h1, h2, hself] <;> simp
  · rw [helems, hcap]
    exact hln
  · rcases hcase with ⟨_, h2, h3⟩ | ⟨_, j, h2⟩
    · intro _
      rw [hcap]
      exact h3
    · rw [h2, hself]
      intro hh
      exact absurd (Option.some.inj hh) (by simp)
  · rcases hcase with ⟨_, h2, _⟩ | ⟨_, j, h2⟩ <;>
      rw [h2, hcap] <;> simp <;> omega
  · rcases hcase with ⟨_, h2, _⟩ | ⟨_, j, h2⟩ <;> rw [h2, hself] <;>
      simp [storeOk]

lemma WF_reserve {α : Type} {N n : Nat} {pv : placed_vector α}
    (h : WF N pv) :
    WF N (reserve n pv) ∧ (reserve n pv).elems = pv.elems ∧
    (reserve n pv).self = pv.self := by
  unfold reserve
  by_cases hc : n ≤ pv.cap
  · rw [if_pos hc]
    exact ⟨h, rfl, rfl⟩
  · rw [if_neg hc]
    have hlen := h.2.2.2.1
    exact WF_realloc h (by omega) (by omega)

lemma WF_set_elems {α : Type} {N : Nat} {pv : placed_vector α} {E : List α}
    (h : WF N pv) (hl : E.length ≤ pv.cap) : WF N { pv with elems := E } := by
  obtain ⟨h1, h2, h3, _, h5, h6, h7⟩ := h
  exact ⟨h1, h2, h3, hl, h5, h6, h7⟩

lemma WF_shrink {α : Type} {N : Nat} {pv : placed_vector α} (h : WF N pv) :
    WF N (shrink_to_fit pv) ∧ (shrink_to_fit pv).elems = pv.elems ∧
    (shrink_to_fit pv).self = pv.self := by
  unfold shrink_to_fit
  by_cases h1 : pv.elems.length = pv.cap
  · rw [if_pos h1]
    exact ⟨h, rfl, rfl⟩
  rw [if_neg h1]
  by_cases h2 : pv.elems.length = 0
  · rw [if_pos h2]
    obtain ⟨hsz, hen, hiff, hlen, hbc, hnc, hok⟩ := h
    rcases hst : pv.store with _ | p
    · have hu : pv.place.is_used = false := by
        cases hq : pv.place.is_used
        · rfl
        · exact absurd (hiff.mp hq) (by rw [hst]; simp)
      refine ⟨?_, ?_, ?_⟩ <;> simp [WF, pvDealloStore, hsz, hen, hu, h2, storeOk]
    · rcases p with j | j
      · have hj : j = pv.self := by
          have := hok
          rw [hst] at this
          simpa [storeOk] using this
        subst hj
        refine ⟨?_, ?_, ?_⟩ <;>
          simp [WF, pvDealloStore, pvDeallocate, hsz, hen, h2, storeOk]
      · have hu : pv.place.is_used = false := by
          cases hq : pv.place.is_used
          · rfl
          · have := hiff.mp hq
            rw [hst] at this
            exact absurd (Option.some.inj this) (by simp)
        refine ⟨?_, ?_, ?_⟩ <;>
          simp [WF, pvDealloStore, pvDeallocate, hsz, hen, hu, h2, storeOk]
  · rw [if_neg h2]
    exact WF_realloc h (le_refl _) (by omega)

lemma WF_push {α : Type} {N : Nat} {pv : placed_vector α} {x : α}
    (h : WF N pv) :
    WF N (push_back pv x) ∧ (push_back pv x).self = pv.self ∧
    (push_back pv x).elems = pv.elems ++ [x] := by
  unfold push_back
  by_cases h1 : pv.elems.length < pv.cap
  · rw [if_pos h1]
    refine ⟨WF_set_elems h ?_, rfl, rfl⟩
    simp
    omega
  · rw [if_neg h1]
    have hlen := h.2.2.2.1
    obtain ⟨hWF2, helems, hself⟩ :=
      WF_realloc (n := if pv.cap = 0 then 1 else 2 * pv.cap) h
        (by split <;> omega) (by split <;> omega)
    have hcap : (realloc pv (if pv.cap = 0 then 1 else 2 * pv.cap)).cap =
        if pv.cap = 0 then 1 else 2 * pv.cap :=
      (realloc_main h).2.2.1
    refine ⟨WF_set_elems hWF2 ?_, hself, rfl⟩
    rw [hcap]
    simp
    split <;> omega

lemma WF_pop {α : Type} {N : Nat} {pv : placed_vector α} (h : WF N pv) :
    WF N (pop_back pv) ∧ (pop_back pv).self = pv.self := by
  have hlen := h.2.2.2.1
  refine ⟨WF_set_elems h ?_, rfl⟩
  have := List.length_dropLast pv.elems
  omega

lemma WF_wipe {α : Type} {N : Nat} {pv : placed_vector α} (h : WF N pv) :
    WF N (clear pv) ∧ (clear pv).self = pv.self := by
  exact ⟨WF_set_elems h (by simp), rfl⟩

/-! ### The `put_in_place` protocol, stage by stage -/

lemma pip_grow_lit {α : Type} {N : Nat} {pv : placed_vector α} (h : WF N pv) :
    ∃ c j f, N + 1 ≤ c ∧
      pip_grow N pv =
        ⟨pv.self, ⟨false, true, N⟩, pv.elems, c, some (Addr.fb j), f⟩ := by
  obtain ⟨a, ⟨u, e, sz⟩, E, c0, st, f0⟩ := pv
  obtain ⟨hsz, hen, hiff, hlen, hbc, hnc, hok⟩ := h
  simp only at hsz hen hiff hlen hbc hnc hok ⊢
  subst sz
  subst hen
  by_cases hc : N + 1 ≤ c0
  · have hu : u = false := by
      cases hq : u
      · rfl
      · rw [hq] at hiff
        have hb := hiff.mp rfl
        have := hbc hb
        omega
    subst hu
    rcases st with _ | p
    · have := hnc.mp rfl
      omega
    · rcases p with jj | jj
      · have hj : jj = a := by simpa [storeOk] using hok
        subst hj
        have := hbc rfl
        omega
      · refine ⟨c0, jj, f0, hc, ?_⟩
        simp [pip_grow, reserve, hc]
  · have hcnd : ¬((true : Bool) = true ∧ u = false ∧ N + 1 ≤ N) := by
      intro hh
      omega
    refine ⟨N + 1, f0, f0 + 1, le_refl _, ?_⟩
    by_cases hst : (st : Option Addr) = some (Addr.buf a)
    · have he2 := @realloc_fb_buf α ⟨a, ⟨u, true, N⟩, E, c0, st, f0⟩
        (N + 1) hcnd hst
      rw [pip_grow, reserve, if_neg (by simpa using hc), he2]
    · have hu : u = false := by
        cases hq : u
        · rfl
        · rw [hq] at hiff
          exact absurd (hiff.mp rfl) hst
      subst hu
      have he2 := @realloc_fb_other α ⟨a, ⟨false, true, N⟩, E, c0, st, f0⟩
        (N + 1) hcnd hst
      rw [pip_grow, reserve, if_neg (by simpa using hc), he2]

lemma pip_core_pos {α : Type} {N : Nat} {pv : placed_vector α} (h : WF N pv)
    (hg : ¬(is_in_place pv = true ∧ pv.cap = N))
    (hs : pv.elems.length ≤ N) (hN : 0 < N) :
    ∃ f, put_in_place N pv =
      (true, ⟨pv.self, ⟨true, true, N⟩, pv.elems, N,
        some (Addr.buf pv.self), f⟩) := by
  obtain ⟨c, j, f, hc, hg3⟩ := pip_grow_lit h
  have hguard2 : ¬(N < pv.elems.length) := by omega
  by_cases hsN : pv.elems.length = N
  · refine ⟨f, ?_⟩
    simp only [put_in_place]
    rw [if_neg hg, if_neg hguard2, hg3]
    simp [pip_disable, pip_shrink, shrink_to_fit, pip_enable, set_enabled,
      pip_reclaim, reserve, realloc, pvAllocate, pvDealloStore, pvDeallocate,
      is_in_place, hsN, show ¬(N = c) by omega, show ¬(N = 0) by omega]
  · by_cases hs0 : pv.elems.length = 0
    · refine ⟨f, ?_⟩
      simp only [put_in_place]
      rw [if_neg hg, if_neg hguard2, hg3]
      simp [pip_disable, pip_shrink, shrink_to_fit, pip_enable, set_enabled,
        pip_reclaim, reserve, realloc, pvAllocate, pvDealloStore, pvDeallocate,
        is_in_place, hs0, hsN, show ¬((0 : Nat) = N) by omega,
        show ¬((0 : Nat) = c) by omega, show ¬(c = 0) by omega,
        show ¬(N ≤ 0) by omega]
    · refine ⟨f + 1, ?_⟩
      simp only [put_in_place]
      rw [if_neg hg, if_neg hguard2, hg3]
      simp [pip_disable, pip_shrink, shrink_to_fit, pip_enable, set_enabled,
        pip_reclaim, reserve, realloc, pvAllocate, pvDealloStore, pvDeallocate,
        is_in_place, hsN, hs0, show ¬(pv.elems.length = c) by omega,
        show ¬(N ≤ pv.elems.length) by omega]

lemma pip_core_zero {α : Type} {pv : placed_vector α} (h : WF 0 pv)
    (hs : pv.elems.length = 0) :
    ∃ f, put_in_place 0 pv =
      (false, ⟨pv.self, ⟨false, true, 0⟩, pv.elems, 0, none, f⟩) := by
  obtain ⟨c, j, f, hc, hg3⟩ := pip_grow_lit h
  obtain ⟨hsz, hen, hiff, hlen, hbc, hnc, hok⟩ := h
  have hg : ¬(is_in_place pv = true ∧ pv.cap = 0) := by
    intro hh
    have hb : pv.store = some (Addr.buf pv.self) := hiff.mp hh.1
    have hn2 : pv.store = none := hnc.mpr hh.2
    rw [hn2] at hb
    exact absurd hb (by simp)
  have hguard2 : ¬(0 < pv.elems.length) := by omega
  refine ⟨f, ?_⟩
  simp only [put_in_place]
  rw [if_neg hg, if_neg hguard2, hg3]
  simp [pip_disable, pip_shrink, shrink_to_fit, pip_enable, set_enabled,
    pip_reclaim, reserve, realloc, pvAllocate, pvDealloStore, pvDeallocate,
    is_in_place, hs, show ¬((0 : Nat) = c) by omega, show ¬(c = 0) by omega]

lemma WF_coerce {α : Type} {N : Nat} {pv : placed_vector α} (h : WF N pv) :
    WF N (put_in_place N pv).2 ∧ (put_in_place N pv).2.elems = pv.elems ∧
    (put_in_place N pv).2.self = pv.self := by
  by_cases hg : is_in_place pv = true ∧ pv.cap = N
  · simp only [put_in_place]
    rw [if_pos hg]
    exact ⟨h, rfl, rfl⟩
  by_cases hgt : N < pv.elems.length
  · simp only [put_in_place]
    rw [if_neg hg, if_pos hgt]
    exact ⟨h, rfl, rfl⟩
  have hs : pv.elems.length ≤ N := by omega
  rcases Nat.eq_zero_or_pos N with hN | hN
  · subst hN
    have hs0 : pv.elems.length = 0 := by omega
    obtain ⟨f, he⟩ := pip_core_zero h hs0
    rw [he]
    refine ⟨?_, rfl, rfl⟩
    simp [WF, storeOk, hs0]
  · obtain ⟨f, he⟩ := pip_core_pos h hg hs hN
    rw [he]
    refine ⟨?_, rfl, rfl⟩
    simp [WF, storeOk, hs, show ¬(N = 0) by omega]

lemma WF_applyOp {α : Type} {N : Nat} {pv : placed_vector α} {op : Op α}
    (h : WF N pv) :
    WF N (applyOp N pv op) ∧ (applyOp N pv op).self = pv.self := by
  cases op with
  | push x => exact ⟨(WF_push h).1, (WF_push h).2.1⟩
  | pop => exact WF_pop h
  | res n => exact ⟨(WF_reserve h).1, (WF_reserve h).2.2⟩
  | shrink => exact ⟨(WF_shrink h).1, (WF_shrink h).2.2⟩
  | wipe => exact WF_wipe h
  | coerce => exact ⟨(WF_coerce h).1, (WF_coerce h).2.2⟩

lemma WF_runOps {α : Type} {N : Nat} {pv : placed_vector α}
    (h : WF N pv) (ops : List (Op α)) :
    WF N (runOps N pv ops) ∧ (runOps N pv ops).self = pv.self := by
  induction ops generalizing pv with
  | nil => exact ⟨h, rfl⟩
  | cons op rest ih =>
    have h1 := @WF_applyOp _ _ _ op h
    have h2 := ih h1.1
    exact ⟨h2.1, h2.2.trans h1.2⟩

/-! ### Construction -/

lemma init_lit {α : Type} {N a : Nat} (hN : 0 < N) :
    init α N a = ⟨a, ⟨true, true, N⟩, [], N, some (Addr.buf a), 0⟩ := by
  simp [init, reserve, realloc, pvAllocate, pvDealloStore,
    show ¬(N ≤ 0) by omega]

lemma WF_init {α : Type} {N a : Nat} : WF N (init α N a) := by
  rcases Nat.eq_zero_or_pos N with h | h
  · subst h
    simp [WF, init, reserve, storeOk]
  · rw [init_lit h]
    simp [WF, storeOk, show ¬(N = 0) by omega]

/-! ### Growth through `push_back` -/

lemma push_back_elems {α : Type} (pv : placed_vector α) (x : α) :
    (push_back pv x).elems = pv.elems ++ [x] := by
  unfold push_back
  split <;> rfl

lemma push_all_elems {α : Type} (pv : placed_vector α) (xs : List α) :
    (push_all pv xs).elems = pv.elems ++ xs := by
  induction xs generalizing pv with
  | nil => simp [push_all]
  | cons x rest ih =>
    have h1 : push_all pv (x :: rest) = push_all (push_back pv x) rest := rfl
    rw [h1, ih, push_back_elems]
    simp

lemma WF_push_all {α : Type} {N : Nat} {pv : placed_vector α} {xs : List α}
    (h : WF N pv) :
    WF N (push_all pv xs) ∧ (push_all pv xs).self = pv.self := by
  induction xs generalizing pv with
  | nil => exact ⟨h, rfl⟩
  | cons x rest ih =>
    have h1 : push_all pv (x :: rest) = push_all (push_back pv x) rest := rfl
    rw [h1]
    have hp := WF_push (x := x) h
    have h2 := ih hp.1
    exact ⟨h2.1, h2.2.trans hp.2.1⟩

lemma push_all_fits {α : Type} {pv : placed_vector α} {xs : List α}
    (h : pv.elems.length + xs.length ≤ pv.cap) :
    push_all pv xs = { pv with elems := pv.elems ++ xs } := by
  induction xs generalizing pv with
  | nil => simp [push_all]
  | cons x rest ih =>
    have h1 : push_all pv (x :: rest) = push_all (push_back pv x) rest := rfl
    have hlt : pv.elems.length < pv.cap := by
      simp at h
      omega
    have h2 : push_back pv x = { pv with elems := pv.elems ++ [x] } := by
      unfold push_back
      rw [if_pos hlt]
    rw [h1, h2, ih (by simp at h ⊢; omega)]
    simp

lemma pvAllocate_elems {α : Type} (pv : placed_vector α) (n : Nat) :
    ((pvAllocate pv n).2).elems = pv.elems := by
  unfold pvAllocate
  split <;> rfl

lemma pvDealloStore_elems {α : Type} (pv : placed_vector α) (o : Option Addr) :
    (pvDealloStore pv o).elems = pv.elems := by
  rcases o with _ | p
  · rfl
  · simp only [pvDealloStore, pvDeallocate]
    split <;> rfl

lemma realloc_elems {α : Type} (pv : placed_vector α) (n : Nat) :
    (realloc pv n).elems = pv.elems := by
  simp only [realloc]
  simp [pvDealloStore_elems, pvAllocate_elems]

lemma reserve_elems {α : Type} (n : Nat) (pv : placed_vector α) :
    (reserve n pv).elems = pv.elems := by
  unfold reserve
  split
  · rfl
  · exact realloc_elems pv n

lemma init_elems {α : Type} (N a : Nat) : (init α N a).elems = [] := by
  simp [init, reserve_elems]

/-! ### Claims -/

/-- C9: for every positive inline capacity `N`, a freshly default-constructed
`placed_vector` is empty, reports `is_in_place() = true` and
`size_in_place() = N`, and has capacity at least `N`, because construction
immediately reserves capacity `N` through the inline-eligible allocator. -/
theorem fresh_container_starts_in_place (α : Type) (N a : Nat) (hN : 0 < N) :
    (init α N a).elems = [] ∧ is_in_place (init α N a) = true ∧
    size_in_place N = N ∧ N ≤ (init α N a).cap := by
  rw [init_lit hN]
  exact ⟨rfl, rfl, rfl, le_refl N⟩

/-- Witness for C9 at `N = 4`. -/
theorem fresh_container_starts_in_place_w :
    (init Nat 4 0).elems = [] ∧ is_in_place (init Nat 4 0) = true ∧
    size_in_place 4 = 4 ∧ 4 ≤ (init Nat 4 0).cap :=
  fresh_container_starts_in_place Nat 4 0 (by decide)

/-- C8: for a freshly constructed `placed_vector`, appending any number of
elements that keeps the count at most `N` never triggers a fallback
allocation (the fallback supply counter stays at zero) and leaves the
vector in place on its own inline buffer after every such append, holding
exactly the appended elements. -/
theorem growth_within_capacity_stays_in_place (α : Type) (N a : Nat)
    (xs : List α) (hN : 0 < N) (hxs : xs.length ≤ N) :
    is_in_place (push_all (init α N a) xs) = true ∧
    (push_all (init α N a) xs).fresh = 0 ∧
    (push_all (init α N a) xs).store = some (Addr.buf a) ∧
    (push_all (init α N a) xs).elems = xs := by
  rw [init_lit hN]
  rw [push_all_fits (by simpa using hxs)]
  exact ⟨rfl, rfl, rfl, by simp⟩

/-- Witness for C8 at `N = 3`, appending two elements. -/
theorem growth_within_capacity_stays_in_place_w :
    is_in_place (push_all (init Nat 3 0) [5, 7]) = true ∧
    (push_all (init Nat 3 0) [5, 7]).fresh = 0 ∧
    (push_all (init Nat 3 0) [5, 7]).store = some (Addr.buf 0) ∧
    (push_all (init Nat 3 0) [5, 7]).elems = [5, 7] :=
  growth_within_capacity_stays_in_place Nat 3 0 [5, 7] (by decide) (by decide)

/-- C7: for a default-constructed `placed_vector` grown only by appends,
once more than `N` elements have been appended `is_in_place()` reports
false — in particular it becomes false at the `(N+1)`-th append and stays
false for every further append. -/
theorem growth_past_capacity_leaves_place (α : Type) (N a : Nat)
    (xs : List α) (hxs : N < xs.length) :
    is_in_place (push_all (init α N a) xs) = false := by
  obtain ⟨hWF, hself⟩ := @WF_push_all α N (init α N a) xs (@WF_init α N a)
  obtain ⟨hsz, hen, hiff, hlen, hbc, hnc, hok⟩ := hWF
  have hlen2 : (push_all (init α N a) xs).elems.length = xs.length := by
    rw [push_all_elems, init_elems]
    simp
  cases hq : (push_all (init α N a) xs).place.is_used
  · exact hq
  · exfalso
    have hb := hiff.mp hq
    have h5 := hbc hb
    omega

/-- Witness for C7 at `N = 2`, appending three elements. -/
theorem growth_past_capacity_leaves_place_w :
    is_in_place (push_all (init Nat 2 0) [1, 2, 3]) = false :=
  growth_past_capacity_leaves_place Nat 2 0 [1, 2, 3] (by decide)

/-- C5: after any sequence of operations on a `placed_vector` built by
default construction, the descriptor's `is_used` flag is true exactly when
the active storage block is the instance's own InlineBuffer; consequently
whenever `is_in_place()` reports true the active storage address is the
InlineBuffer's address. -/
theorem is_used_iff_inline_active (α : Type) (N a : Nat)
    (ops : List (Op α)) :
    ((runOps N (init α N a) ops).place.is_used = true ↔
      (runOps N (init α N a) ops).store = some (Addr.buf a)) ∧
    (is_in_place (runOps N (init α N a) ops) = true →
      (runOps N (init α N a) ops).store = some (Addr.buf a)) := by
  obtain ⟨hWF, hself⟩ := WF_runOps (@WF_init α N a) ops
  have hs2 : (init α N a).self = a := by
    rcases Nat.eq_zero_or_pos N with h0 | h0
    · subst h0
      rfl
    · rw [init_lit h0]
  have h3 := hWF.2.2.1
  rw [hself, hs2] at h3
  exact ⟨h3, fun hc => h3.mp hc⟩

/-- Witness for C5 on a concrete operation sequence that overflows, shrinks
back and coerces in place. -/
theorem is_used_iff_inline_active_w :
    (runOps 2 (init Nat 2 0) [Op.push 1, Op.push 2, Op.push 3, Op.pop,
      Op.pop, Op.coerce]).store = some (Addr.buf 0) :=
  (is_used_iff_inline_active Nat 2 0 [Op.push 1, Op.push 2, Op.push 3,
    Op.pop, Op.pop, Op.coerce]).2 (by decide)

/-- C2: for every well-formed `placed_vector` whose element count is at most
`N` (for instance one that grew past `N` and shrank back), `put_in_place()`
returns true, `is_in_place()` reports true afterwards, and the element
sequence — values and order — is identical before and after the call (the
modelled fallback allocator always succeeds). -/
theorem put_in_place_succeeds_when_fits {α : Type} (N : Nat)
    (pv : placed_vector α) (h : WF N pv) (hN : 0 < N)
    (hs : pv.elems.length ≤ N) :
    (put_in_place N pv).1 = true ∧
    is_in_place (put_in_place N pv).2 = true ∧
    (put_in_place N pv).2.elems = pv.elems := by
  by_cases hg : is_in_place pv = true ∧ pv.cap = N
  · simp only [put_in_place]
    rw [if_pos hg]
    exact ⟨rfl, hg.1, rfl⟩
  · obtain ⟨f, he⟩ := pip_core_pos h hg hs hN
    rw [he]
    exact ⟨rfl, rfl, rfl⟩

/-- Witness for C2: grow a `N = 4` vector to five elements, pop back down to
three, then coerce back in place. -/
theorem put_in_place_succeeds_when_fits_w :
    (put_in_place 4 (pop_back (pop_back
      (push_all (init Nat 4 0) [1, 2, 3, 4, 5])))).1 = true ∧
    is_in_place (put_in_place 4 (pop_back (pop_back
      (push_all (init Nat 4 0) [1, 2, 3, 4, 5])))).2 = true ∧
    (put_in_place 4 (pop_back (pop_back
      (push_all (init Nat 4 0) [1, 2, 3, 4, 5])))).2.elems =
      (pop_back (pop_back (push_all (init Nat 4 0) [1, 2, 3, 4, 5]))).elems :=
  put_in_place_succeeds_when_fits 4
    (pop_back (pop_back (push_all (init Nat 4 0) [1, 2, 3, 4, 5])))
    (by decide) (by decide) (by decide)

/-- C3: for every well-formed `placed_vector` whose element count exceeds
`N`, `put_in_place()` returns false and the state — elements, order, size,
capacity, storage, and the fallback supply counter (so no allocation is
performed) — is completely unchanged. -/
theorem put_in_place_fails_when_oversized {α : Type} (N : Nat)
    (pv : placed_vector α) (h : WF N pv) (hs : N < pv.elems.length) :
    put_in_place N pv = (false, pv) := by
  have hg : ¬(is_in_place pv = true ∧ pv.cap = N) := by
    intro hh
    have hb := h.2.2.1.mp hh.1
    have h5 := h.2.2.2.2.1 hb
    have hlen := h.2.2.2.1
    omega
  simp only [put_in_place]
  rw [if_neg hg, if_pos hs]

/-- Witness for C3: six elements in a `N = 4` vector. -/
theorem put_in_place_fails_when_oversized_w :
    put_in_place 4 (push_all (init Nat 4 0) [1, 2, 3, 4, 5, 6]) =
      (false, push_all (init Nat 4 0) [1, 2, 3, 4, 5, 6]) :=
  put_in_place_fails_when_oversized 4
    (push_all (init Nat 4 0) [1, 2, 3, 4, 5, 6]) (by decide) (by decide)

/-- C6: inside a `put_in_place()` call that passes the size guard and was
not already in place with capacity `N`: the growth to `N + 1` is satisfied
by the fallback (afterwards the inline region is not the active storage),
the descriptor is disabled before the shrink exactly when the element count
differs from `N` at that point, and it is enabled again before the final
capacity request of `N`, after which the active storage is the inline
buffer. -/
theorem put_in_place_stage_protocol {α : Type} (N : Nat)
    (pv : placed_vector α) (h : WF N pv)
    (hg : ¬(is_in_place pv = true ∧ pv.cap = N))
    (hs : pv.elems.length ≤ N) (hN : 0 < N) :
    is_in_place (pip_grow N pv) = false ∧
    (∃ j, (pip_grow N pv).store = some (Addr.fb j)) ∧
    (pip_grow N pv).store ≠ some (Addr.buf pv.self) ∧
    ((pip_disable N (pip_grow N pv)).place.is_enabled = false ↔
      pv.elems.length ≠ N) ∧
    (pip_enable (pip_shrink (pip_disable N
      (pip_grow N pv)))).place.is_enabled = true ∧
    (pip_reclaim N (pip_enable (pip_shrink (pip_disable N
      (pip_grow N pv))))).store = some (Addr.buf pv.self) := by
  obtain ⟨c, j, f, hc, hg3⟩ := pip_grow_lit h
  obtain ⟨f2, he⟩ := pip_core_pos h hg hs hN
  have hguard2 : ¬(N < pv.elems.length) := by omega
  simp only [put_in_place] at he
  rw [if_neg hg, if_neg hguard2] at he
  have he2 := congrArg Prod.snd he
  simp only at he2
  refine ⟨?_, ?_, ?_, ?_, ?_, ?_⟩
  · rw [hg3]
    rfl
  · rw [hg3]
    exact ⟨j, rfl⟩
  · rw [hg3]
    simp
  · by_cases hsN : pv.elems.length = N
    · have hl : (pip_grow N pv).elems.length = N := by
        rw [hg3]
        exact hsN
      simp [pip_disable, set_enabled, hl, hsN, hg3]
    · have hl : ¬((pip_grow N pv).elems.length = N) := by
        rw [hg3]
        exact hsN
      simp [pip_disable, set_enabled, hl, hsN]
  · rfl
  · rw [he2]

/-- Witness for C6 on a concrete off-place state with one element and
inline capacity two. -/
theorem put_in_place_stage_protocol_w :
    is_in_place (pip_grow 2 (⟨0, ⟨false, true, 2⟩, [9], 5,
      some (Addr.fb 0), 1⟩ : placed_vector Nat)) = false ∧
    (∃ j, (pip_grow 2 (⟨0, ⟨false, true, 2⟩, [9], 5, some (Addr.fb 0),
      1⟩ : placed_vector Nat)).store = some (Addr.fb j)) ∧
    (pip_grow 2 (⟨0, ⟨false, true, 2⟩, [9], 5, some (Addr.fb 0),
      1⟩ : placed_vector Nat)).store ≠ some (Addr.buf 0) ∧
    ((pip_disable 2 (pip_grow 2 (⟨0, ⟨false, true, 2⟩, [9], 5,
      some (Addr.fb 0), 1⟩ : placed_vector Nat))).place.is_enabled = false ↔
      ([9] : List Nat).length ≠ 2) ∧
    (pip_enable (pip_shrink (pip_disable 2 (pip_grow 2 (⟨0, ⟨false, true, 2⟩,
      [9], 5, some (Addr.fb 0), 1⟩ : placed_vector Nat))))).place.is_enabled =
      true ∧
    (pip_reclaim 2 (pip_enable (pip_shrink (pip_disable 2 (pip_grow 2
      (⟨0, ⟨false, true, 2⟩, [9], 5, some (Addr.fb 0),
        1⟩ : placed_vector Nat)))))).store = some (Addr.buf 0) :=
  put_in_place_stage_protocol 2
    (⟨0, ⟨false, true, 2⟩, [9], 5, some (Addr.fb 0), 1⟩ : placed_vector Nat)
    (by decide) (by decide) (by decide) (by decide)

/-- C1 (code bug): the copy constructor initialises the `std::vector` base
before the member `m_place`, so the descriptor the copy-allocation
consults is uninitialised and `m_place`'s constructor afterwards resets
`is_used` to false: whatever the indeterminate reads yielded, a freshly
copied `placed_vector` never reports `is_in_place()` — its descriptor ends
up `{is_used = false, is_enabled = true}` — although the elements are
copied; in particular copying the fresh in-place `placed_vector<Nat, 4>`
(whose copy is allocation-free and well defined) yields a copy that is not
in place, contradicting the claim. -/
theorem copy_construct_never_in_place :
    (∀ (α : Type) (N b jb : Nat) (junk : place_manager)
      (src : placed_vector α),
      is_in_place (copy_construct N b junk jb src) = false ∧
      (copy_construct N b junk jb src).place = ⟨false, true, N⟩ ∧
      (copy_construct N b junk jb src).elems = src.elems) ∧
    (is_in_place (init Nat 4 0) = true ∧
      ∀ (junk : place_manager) (jb : Nat),
        is_in_place (copy_construct 4 1 junk jb (init Nat 4 0)) = false) := by
  refine ⟨?_, ?_, ?_⟩
  · intro α N b jb junk src
    unfold copy_construct
    split_ifs with h1 h2
    · exact ⟨rfl, rfl, (List.length_eq_zero.mp h1).symm⟩
    · exact ⟨rfl, rfl, rfl⟩
    · exact ⟨rfl, rfl, rfl⟩
  · decide
  · intro junk jb
    simp [copy_construct, is_in_place, init_elems]

/-- C4: `allocator_in_place::allocate(n)` returns the InlineBuffer address
and marks the descriptor used if and only if a descriptor is attached,
enabled, not already used, and `n` fits its capacity; in every other case
it delegates to the fallback allocator (a fresh fallback block) and leaves
the descriptor — in particular its used flag — unchanged. -/
theorem allocate_inline_iff_acquire (a : allocator_in_place) (n : Nat) :
    (∀ o pm, a.place = some (o, pm) →
      pm.is_enabled = true → pm.is_used = false → n ≤ pm.size →
        (a.allocate n).1 = Addr.buf o ∧
        (a.allocate n).2 =
          { a with place := some (o, { pm with is_used := true }) }) ∧
    (∀ o pm, a.place = some (o, pm) →
      ¬(pm.is_enabled = true ∧ pm.is_used = false ∧ n ≤ pm.size) →
        (a.allocate n).1 = Addr.fb a.fresh ∧
        (a.allocate n).2 = { a with fresh := a.fresh + 1 }) ∧
    (a.place = none →
      (a.allocate n).1 = Addr.fb a.fresh ∧
      (a.allocate n).2 = { a with fresh := a.fresh + 1 }) ∧
    ((∃ o, (a.allocate n).1 = Addr.buf o) ↔
      (∃ o pm, a.place = some (o, pm) ∧ pm.is_enabled = true ∧
        pm.is_used = false ∧ n ≤ pm.size)) := by
  obtain ⟨pl, fr⟩ := a
  rcases pl with _ | op
  · refine ⟨?_, ?_, ?_, ?_⟩
    · intro o pm hp
      exact absurd hp (by simp)
    · intro o pm hp
      exact absurd hp (by simp)
    · intro _
      exact ⟨rfl, rfl⟩
    · constructor
      · rintro ⟨o, ho⟩
        simp [allocator_in_place.allocate] at ho
      · rintro ⟨o, pm, hp, _⟩
        simp at hp
  · obtain ⟨o0, pm0⟩ := op
    by_cases hcnd : pm0.is_enabled = true ∧ pm0.is_used = false ∧
        n ≤ pm0.size
    · have hall : allocator_in_place.allocate ⟨some (o0, pm0), fr⟩ n =
          (Addr.buf o0, ⟨some (o0, { pm0 with is_used := true }), fr⟩) := by
        simp only [allocator_in_place.allocate]
        rw [if_pos hcnd]
      refine ⟨?_, ?_, ?_, ?_⟩
      · intro o pm hp h1 h2 h3
        obtain ⟨rfl, rfl⟩ : o0 = o ∧ pm0 = pm := by simpa using hp
        rw [hall]
        exact ⟨rfl, rfl⟩
      · intro o pm hp hn2
        obtain ⟨rfl, rfl⟩ : o0 = o ∧ pm0 = pm := by simpa using hp
        exact absurd hcnd hn2
      · intro hp
        simp at hp
      · constructor
        · intro _
          exact ⟨o0, pm0, rfl, hcnd.1, hcnd.2.1, hcnd.2.2⟩
        · intro _
          exact ⟨o0, by rw [hall]⟩
    · have hall : allocator_in_place.allocate ⟨some (o0, pm0), fr⟩ n =
          (Addr.fb fr, ⟨some (o0, pm0), fr + 1⟩) := by
        simp only [allocator_in_place.allocate]
        rw [if_neg hcnd]
      refine ⟨?_, ?_, ?_, ?_⟩
      · intro o pm hp h1 h2 h3
        obtain ⟨rfl, rfl⟩ : o0 = o ∧ pm0 = pm := by simpa using hp
        exact absurd ⟨h1, h2, h3⟩ hcnd
      · intro o pm hp _
        obtain ⟨rfl, rfl⟩ : o0 = o ∧ pm0 = pm := by simpa using hp
        rw [hall]
        exact ⟨rfl, rfl⟩
      · intro hp
        simp at hp
      · constructor
        · rintro ⟨o, ho⟩
          rw [hall] at ho
          simp at ho
        · rintro ⟨o, pm, hp, h1, h2, h3⟩
          obtain ⟨rfl, rfl⟩ : o0 = o ∧ pm0 = pm := by simpa using hp
          exact absurd ⟨h1, h2, h3⟩ hcnd

/-- Witness for C4: an inline grant, a refused oversize request, and a
detached delegate. -/
theorem allocate_inline_iff_acquire_w :
    (allocator_in_place.allocate ⟨some (0, ⟨false, true, 4⟩), 7⟩ 3).1 =
      Addr.buf 0 ∧
    (allocator_in_place.allocate ⟨some (0, ⟨false, true, 4⟩), 7⟩ 9).1 =
      Addr.fb 7 ∧
    (allocator_in_place.allocate ⟨none, 5⟩ 2).1 = Addr.fb 5 :=
  ⟨((allocate_inline_iff_acquire ⟨some (0, ⟨false, true, 4⟩), 7⟩ 3).1
      0 ⟨false, true, 4⟩ rfl rfl rfl (by decide)).1,
    ((allocate_inline_iff_acquire ⟨some (0, ⟨false, true, 4⟩), 7⟩ 9).2.1
      0 ⟨false, true, 4⟩ rfl (by decide)).1,
    ((allocate_inline_iff_acquire ⟨none, 5⟩ 2).2.2.1 rfl).1⟩

/-- C10: `allocator_in_place::deallocate` dereferences its descriptor
pointer unconditionally — for a detached allocator its behaviour is
undefined (modelled as `none`) — unlike `allocate`, which then always
delegates to the fallback, and `is_in_place`, which then returns false; a
detached allocator is exactly what the defaulted constructor argument and
the rebind converting constructor produce; and the error branch is
unreachable whenever a descriptor is attached, which holds for every
allocator a `placed_vector` constructs for itself (its `deallocate` is the
attached specialisation `pvDeallocate`). -/
theorem deallocate_requires_attached_place :
    (∀ (a : allocator_in_place) (p : Addr), a.place = none →
      a.deallocate p = none) ∧
    (∀ (a : allocator_in_place) (n : Nat), a.place = none →
      (a.allocate n).1 = Addr.fb a.fresh ∧
      (a.allocate n).2 = { a with fresh := a.fresh + 1 }) ∧
    (∀ a : allocator_in_place, a.place = none → a.is_in_place = false) ∧
    (∀ b : allocator_in_place,
      (allocator_in_place.rebind_build b).place = none) ∧
    allocator_in_place.default_build.place = none ∧
    (∀ (a : allocator_in_place) (p : Addr), a.place ≠ none →
      (a.deallocate p).isSome = true) ∧
    (∀ (pv : placed_vector Nat) (p : Addr),
      allocator_in_place.deallocate ⟨some (pv.self, pv.place), pv.fresh⟩ p =
        some ⟨some ((pvDeallocate pv p).self, (pvDeallocate pv p).place),
          (pvDeallocate pv p).fresh⟩) := by
  refine ⟨?_, ?_, ?_, ?_, rfl, ?_, ?_⟩
  · intro a p hp
    simp [allocator_in_place.deallocate, hp]
  · intro a n hp
    constructor <;> simp [allocator_in_place.allocate, hp]
  · intro a hp
    simp [allocator_in_place.is_in_place, hp]
  · intro b
    rfl
  · intro a p hp
    rcases hq : a.place with _ | op
    · exact absurd hq hp
    · simp only [allocator_in_place.deallocate, hq]
      split <;> rfl
  · intro pv p
    by_cases hp : p = Addr.buf pv.self
    · simp [allocator_in_place.deallocate, pvDeallocate, hp]
    · simp [allocator_in_place.deallocate, pvDeallocate, hp]

/-- Witness for C10: the null dereference on a detached allocator, the
tolerant `allocate` and `is_in_place`, and a successful attached release. -/
theorem deallocate_requires_attached_place_w :
    allocator_in_place.deallocate ⟨none, 0⟩ (Addr.fb 1) = none ∧
    (allocator_in_place.allocate ⟨none, 3⟩ 2).1 = Addr.fb 3 ∧
    allocator_in_place.is_in_place ⟨none, 0⟩ = false ∧
    (allocator_in_place.deallocate ⟨some (0, ⟨true, true, 4⟩), 0⟩
      (Addr.buf 0)).isSome = true :=
  ⟨deallocate_requires_attached_place.1 ⟨none, 0⟩ (Addr.fb 1) rfl,
    (deallocate_requires_attached_place.2.1 ⟨none, 3⟩ 2 rfl).1,
    deallocate_requires_attached_place.2.2.1 ⟨none, 0⟩ rfl,
    deallocate_requires_attached_place.2.2.2.2.2.1
      ⟨some (0, ⟨true, true, 4⟩), 0⟩ (Addr.buf 0) (by decide)⟩
